import Mathlib

/-!
Verification development for the `cndbTools` analysis class of OpenMiChroM
(`src/OpenMiChroM/CndbTools.py`).

The Python source is embedded shallowly:

* the two bead-type translation tables (`__init__` and the local table of
  `ndb2cndb`) become finite partial maps `String → Option Nat`;
* the ndb → cndb converter `ndb2cndb` becomes a fold of a step function over
  a list of parsed records.  A record is modelled at the granularity of the
  source's dispatch on the 6-character tag (`MODEL` / `CHROM` / `ENDMDL` /
  `LOOPS` / anything else); a `CHROM` record carries the bead-type label and
  the three coordinates that the source extracts from fixed column ranges.
  The hdf5 container becomes an association list from string keys to values,
  written in the order the source writes them;
* the extractor `xyz` becomes a function over the loaded object's fields
  (`Nbeads`, `Nframes`, the per-key frame store).  `numpy.take` (which the
  source uses for both the bead and the axis selection) is embedded with its
  real index semantics: an index `i` with `0 ≤ i < n` selects row `i`, an
  index with `-n ≤ i < 0` wraps to `i + n`, anything else raises; `range`
  with positive step is embedded as `pyRange`.  Python's in-place mutation of
  the caller's `frames` list is made explicit by returning the updated range
  alongside the tensor;
* the coordinates handled by the converter and the extractor are modelled as
  rationals (the numeric values are opaque payload for those operations);
  the three analysis routines (`compute_RG`, `compute_RDP`, `traj2HiC`),
  which genuinely compute with square roots, π and tanh, are modelled over
  the reals.
-/

/-- The label → code table built in `cndbTools.__init__`
(`Type_conversion = {'A1':0, 'A2':1, 'B1':2, 'B2':3, 'B3':4, 'B4':5, 'NA':6}`).
A lookup of a label outside the table raises `KeyError` in Python, hence the
`Option`. -/
def Type_conversion : String → Option Nat
  | "A1" => some 0
  | "A2" => some 1
  | "B1" => some 2
  | "B2" => some 3
  | "B3" => some 4
  | "B4" => some 5
  | "NA" => some 6
  | _ => none

/-- The inverse table built in `cndbTools.__init__`
(`Type_conversionInv = {y:x for x,y in self.Type_conversion.items()}`),
used by `load` to decode stored codes back to labels. -/
def Type_conversionInv : Nat → Option String
  | 0 => some "A1"
  | 1 => some "A2"
  | 2 => some "B1"
  | 3 => some "B2"
  | 4 => some "B3"
  | 5 => some "B4"
  | 6 => some "NA"
  | _ => none

/-- The local label → code table of `ndb2cndb`
(`Type_conversion = {'A1':0, 'A2':1, 'B1':2, 'B2':3, 'B3':4, 'B4':5, 'UN':6}`).
Note the seventh label is `UN` here, while the loader's table has `NA`. -/
def ndbType_conversion : String → Option Nat
  | "A1" => some 0
  | "A2" => some 1
  | "B1" => some 2
  | "B2" => some 3
  | "B3" => some 4
  | "B4" => some 5
  | "UN" => some 6
  | _ => none

/-- `Type_conversion[x]` inside `ndb2cndb`.  The source raises `KeyError` on a
label outside the table; the theorems about the converter restrict to inputs
whose labels are in the table, so the default `7` (a code the table never
produces) is never reached there. -/
def typeCode (t : String) : Nat := (ndbType_conversion t).getD 7

/-! ### The ndb → cndb converter (`ndb2cndb`) -/

/-- One line of an ndb file, at the granularity of `ndb2cndb`'s dispatch on
the line's 6-character tag.  A `CHROM` line carries the bead-type label
(`line[16:18]`) and the X/Y/Z coordinates (`line[40:48]`, `line[49:57]`,
`line[58:66]`); a `LOOPS` line carries its second and third whitespace
fields; every line with any other tag is ignored by the converter. -/
inductive NdbRecord where
  | model : NdbRecord
  | chrom (subtype : String) (x y z : ℚ) : NdbRecord
  | endmdl : NdbRecord
  | loops (i j : ℤ) : NdbRecord
  | other : NdbRecord

/-- A value stored in the cndb container: the `types` integer array, a frame's
`N×3` coordinate array (`np.vstack([x,y,z]).T`, i.e. a list of coordinate
triples), or the `loops` pair list. -/
inductive CndbValue where
  | ints (xs : List Nat) : CndbValue
  | frame (ps : List (ℚ × ℚ × ℚ)) : CndbValue
  | loopsVal (ps : List (ℤ × ℤ)) : CndbValue

/-- The cndb container, as the association list of (key, value) pairs in the
order `ndb2cndb` writes them. -/
abbrev Container := List (String × CndbValue)

/-- The mutable state of `ndb2cndb`'s loop over the lines of the ndb file:
`loop`, `types`, `types_bool`, `loop_list`, the coordinate accumulators
`x`, `y`, `z`, the frame counter `frame`, and the (written part of the)
output container `cndbf`. -/
structure NdbState where
  loop : Nat
  types : List String
  types_bool : Bool
  loop_list : List (ℤ × ℤ)
  xs : List ℚ
  ys : List ℚ
  zs : List ℚ
  frame : Nat
  cndbf : Container

/-- The state at the top of `ndb2cndb`'s loop
(`loop = 0`, `types = []`, `types_bool = True`, `loop_list = []`,
`x = y = z = []`, `frame = 0`, empty container). -/
def initNdbState : NdbState :=
  { loop := 0, types := [], types_bool := true, loop_list := [],
    xs := [], ys := [], zs := [], frame := 0, cndbf := [] }

/-- One iteration of `ndb2cndb`'s `for line in ndbfile` loop.
`MODEL` increments the frame counter; `CHROM` appends the label and the
three coordinates to the accumulators (the label list is never cleared);
`ENDMDL` writes the translated type list under key `types` on its first
occurrence only, then writes the accumulated coordinates as the current
frame's array under the frame counter's decimal string and clears the
coordinate accumulators; `LOOPS` appends a pair and bumps the loop counter;
every other line is ignored. -/
def stepNdb (s : NdbState) (r : NdbRecord) : NdbState :=
  match r with
  | .model => { s with frame := s.frame + 1 }
  | .chrom t x y z =>
      { s with types := s.types ++ [t], xs := s.xs ++ [x],
               ys := s.ys ++ [y], zs := s.zs ++ [z] }
  | .endmdl =>
      let s1 := if s.types_bool then
          { s with cndbf := s.cndbf ++ [("types", CndbValue.ints (s.types.map typeCode))],
                   types_bool := false }
        else s
      { s1 with cndbf := s1.cndbf ++
                  [(toString s1.frame, CndbValue.frame (s1.xs.zip (s1.ys.zip s1.zs)))],
                xs := [], ys := [], zs := [] }
  | .loops i j => { s with loop_list := s.loop_list ++ [(i, j)], loop := s.loop + 1 }
  | .other => s

/-- `ndb2cndb`: fold the step function over the file's records, then append
the `loops` key only when at least one loop record was seen. -/
def ndb2cndb (records : List NdbRecord) : Container :=
  let s := records.foldl stepNdb initNdbState
  if 0 < s.loop then s.cndbf ++ [("loops", CndbValue.loopsVal s.loop_list)] else s.cndbf

/-- The records of one ndb structure block: `MODEL`, one `CHROM` per bead
(label and coordinate triple), `ENDMDL`. -/
def blockOf (fr : List (String × (ℚ × ℚ × ℚ))) : List NdbRecord :=
  NdbRecord.model ::
    (fr.map fun tp => NdbRecord.chrom tp.1 tp.2.1 tp.2.2.1 tp.2.2.2) ++ [NdbRecord.endmdl]

/-- An ndb file consisting of `blocks.length` structure blocks and nothing
else (no loop records, no other records). -/
def buildNdb : List (List (String × (ℚ × ℚ × ℚ))) → List NdbRecord
  | [] => []
  | b :: bs => blockOf b ++ buildNdb bs

/-- The frame array `ndb2cndb` writes for one structure block: the block's
coordinate triples in order. -/
def frameVal (fr : List (String × (ℚ × ℚ × ℚ))) : CndbValue :=
  CndbValue.frame (fr.map fun tp => tp.2)

/-- The `types` array `ndb2cndb` writes: the first block's labels translated
through the converter's table. -/
def typesVal (fr : List (String × (ℚ × ℚ × ℚ))) : CndbValue :=
  CndbValue.ints (fr.map fun tp => typeCode tp.1)

/-- The frame entries `ndb2cndb` writes for the given blocks when the frame
counter stands at `k` before the first of them: block `m` goes under the key
`toString (k + m + 1)`. -/
def expectedFrames : List (List (String × (ℚ × ℚ × ℚ))) → Nat → Container
  | [], _ => []
  | b :: bs, k => (toString (k + 1), frameVal b) :: expectedFrames bs (k + 1)

/-! ### The loader (`load`) -/

/-- `np.array(self.cndb['types'])` in `load`: the container's `types` entry,
when present and an integer array. -/
def getTypes (c : Container) : Option (List Nat) :=
  match c.lookup "types" with
  | some (CndbValue.ints xs) => some xs
  | _ => none

/-- `self.Nbeads = len(self.ChromSeq_numbers)` in `load`. -/
def loadNbeads (c : Container) : Option Nat := (getTypes c).map List.length

/-- `self.Nframes = len(self.cndb.keys()) - 1` in `load`. -/
def loadNframes (c : Container) : Nat := c.length - 1

/-! ### The extractor (`xyz`) -/

/-- The `frames=[initial, final, step]` argument of `xyz`.  `final` is
`Option` because the source passes `None` there by default. -/
structure FrameRange where
  start : ℤ
  stop : Option ℤ
  step : ℤ
deriving DecidableEq

/-- Fuel-indexed body of `pyRange`. -/
def pyRangeAux : Nat → ℤ → ℤ → ℤ → List ℤ
  | 0, _, _, _ => []
  | n + 1, a, b, c => if a < b then a :: pyRangeAux n (a + c) b c else []

/-- Python's `range(a, b, c)` for a positive step `c`: the arithmetic
progression `a, a+c, …` while `< b`.  (The source is only ever called with
step `1`; non-positive steps are out of the embedded contract and yield
`[]`.) -/
def pyRange (a b c : ℤ) : List ℤ :=
  if 0 < c then pyRangeAux (b - a).toNat a b c else []

/-- Index normalization of `numpy.take` (default `mode='raise'`): an index in
`[0, n)` is used as is, an index in `[-n, 0)` wraps by `+ n`, anything else
raises `IndexError` (hence `none`). -/
def npIndex (n : Nat) (i : ℤ) : Option Nat :=
  if 0 ≤ i ∧ i < (n : ℤ) then some i.toNat
  else if -(n : ℤ) ≤ i ∧ i < 0 then some (i + n).toNat
  else none

/-- `numpy.take(xs, idx, axis=0)` on a list: pick the element at each
(normalized) index, in the order the index list gives them; any
out-of-bounds index raises `IndexError`. -/
def npGet {α : Type} (xs : List α) (i : ℤ) : Except String α :=
  match npIndex xs.length i with
  | some k =>
    match xs[k]? with
    | some v => Except.ok v
    | none => Except.error "IndexError"
  | none => Except.error "IndexError"

/-- `numpy.take` of a whole index list: `npGet` at each index, in the order
the index list gives them. -/
def npTake {α : Type} (xs : List α) (idx : List ℤ) : Except String (List α) :=
  idx.mapM (npGet xs)

/-- `frames[1]` after `xyz`'s `if frames[1] == None: frames[1] = self.Nframes`:
the stop value actually used. -/
def stopOf (r : FrameRange) (Nframes : Nat) : ℤ := r.stop.getD (Nframes : ℤ)

/-- The frame keys `xyz` iterates:
`range(frames[0], frames[1], frames[2])` after the `None` default. -/
def frameIndices (r : FrameRange) (Nframes : Nat) : List ℤ :=
  pyRange r.start (stopOf r Nframes) r.step

/-- One loop body of `cndbTools.xyz`:
`np.take(np.take(np.array(self.cndb[str(i)]), selection, axis=0), XYZ, axis=1)`.
`stored` is the container's entry for the frame key (`none` meaning the key
is absent and h5py raises `KeyError`): take the selected rows (beads) in
selection order, then the selected columns (axes) in axis order. -/
def xyzFrame (selection XYZ : List ℤ) (stored : Option (List (List ℚ))) :
    Except String (List (List ℚ)) :=
  match stored with
  | none => Except.error "KeyError"
  | some arr => (npTake arr selection).bind fun rows =>
      rows.mapM fun row => npTake row XYZ

/-- The `frame_list` built by `xyz`'s loop: one `xyzFrame` per key of the
frame range. -/
def xyzTensor (Nbeads Nframes : Nat) (cndb : ℤ → Option (List (List ℚ)))
    (frames : FrameRange) (beadSelection : Option (List ℤ)) (XYZ : List ℤ) :
    Except String (List (List (List ℚ))) :=
  let selection : List ℤ := match beadSelection with
    | none => (List.range Nbeads).map fun n => (n : ℤ)
    | some s => s
  (frameIndices frames Nframes).mapM fun i => xyzFrame selection XYZ (cndb i)

/-- `cndbTools.xyz`, over the loaded object's fields `Nbeads`, `Nframes` and
the frame store `cndb` (`cndb i` is `self.cndb[str(i)]`).
`beadSelection = none` is the `'all'` sentinel.  The first component of the
result is the `frames` list after the call: Python mutates the caller's
list in place when its stop entry is `None`, so the mutation is returned
explicitly.  The second component is the returned tensor. -/
def xyz (Nbeads Nframes : Nat) (cndb : ℤ → Option (List (List ℚ)))
    (frames : FrameRange) (beadSelection : Option (List ℤ)) (XYZ : List ℤ) :
    FrameRange × Except String (List (List (List ℚ))) :=
  ({ frames with stop := some (stopOf frames Nframes) },
    xyzTensor Nbeads Nframes cndb frames beadSelection XYZ)

/-! ### The analysis routines (`compute_RG`, `compute_RDP`, `traj2HiC`)

These compute with square roots, π and tanh, so they are modelled over ℝ;
the comparisons and conditionals they contain become classical. -/

section Analysis

open Classical

/-- `np.mean` of a one-dimensional array (a column of a frame). -/
noncomputable def lmean (xs : List ℝ) : ℝ := xs.sum / xs.length

/-- `data - np.mean(data, axis=0)` along one axis. -/
noncomputable def centerList (xs : List ℝ) : List ℝ := xs.map fun x => x - lmean xs

/-- `np.var(data, 0)` along one axis: the population variance, the mean of
the squared deviations from the mean. -/
noncomputable def npVarList (xs : List ℝ) : ℝ :=
  lmean ((centerList xs).map fun x => x ^ 2)

/-- `cndbTools.compute_RG`: for each frame, subtract the per-axis mean from
the coordinates, then take the square root of `np.sum(np.var(data, 0))`,
the sum over the three axes of the population variance of the centered
column. -/
noncomputable def compute_RG (xyz : List (List (ℝ × ℝ × ℝ))) : List ℝ :=
  xyz.map fun frame =>
    Real.sqrt (npVarList (centerList (frame.map fun p => p.1))
      + npVarList (centerList (frame.map fun p => p.2.1))
      + npVarList (centerList (frame.map fun p => p.2.2)))

/-- The spec's formula for the radius of gyration of one frame, stated in the
spec's own words for comparison with `compute_RG`: center the bead
coordinates by subtracting the per-axis mean, then take the square root of
the sum over the three axes of the population variance of the centered
coordinates — where the centered coordinates have mean zero, so the
per-axis population variance is the mean of the squared centered values. -/
noncomputable def RG_spec (frame : List (ℝ × ℝ × ℝ)) : ℝ :=
  Real.sqrt (lmean ((centerList (frame.map fun p => p.1)).map fun x => x ^ 2)
    + lmean ((centerList (frame.map fun p => p.2.1)).map fun x => x ^ 2)
    + lmean ((centerList (frame.map fun p => p.2.2)).map fun x => x ^ 2))

/-- `calcDist` inside `compute_RDP`: the Euclidean distance of two beads. -/
noncomputable def calcDist (a b : ℝ × ℝ × ℝ) : ℝ :=
  Real.sqrt ((a.1 - b.1) ^ 2 + (a.2.1 - b.2.1) ^ 2 + (a.2.2 - b.2.2) ^ 2)

/-- The count accumulated into `g_r[k]` by one pass of `calc_gr`'s inner
`for` loop with the running radius `raddi`: the number of beads whose
distance `dd[i]` to `ref` satisfies `raddi ≤ dd[i] < raddi + dr`. -/
noncomputable def shellCount (ref : ℝ × ℝ × ℝ) (pos : List (ℝ × ℝ × ℝ))
    (raddi dr : ℝ) : ℝ :=
  (pos.map fun p =>
    if raddi ≤ calcDist p ref ∧ calcDist p ref < raddi + dr then (1 : ℝ) else 0).sum

/-- `calc_gr` inside `compute_RDP`.  The `while (raddi <= R)` loop starts at
`raddi = dr` and steps by `dr`, so its iteration `k` (writing `g_r[k]`) has
`raddi = (k+1)·dr`; over the reals the loop runs exactly `⌊R/dr⌋` times,
matching the allocated size `int(R/dr)` of `g_r`.  Each entry is the shell
count divided by `4π·dr·raddi²`. -/
noncomputable def calc_gr (ref : ℝ × ℝ × ℝ) (pos : List (ℝ × ℝ × ℝ))
    (R dr : ℝ) : List ℝ :=
  (List.range ⌊R / dr⌋₊).map fun k : Nat =>
    shellCount ref pos (((k : ℝ) + 1) * dr) dr
      / (4 * Real.pi * dr * (((k : ℝ) + 1) * dr) ^ 2)

/-- `np.mean(frame, axis=0)` in `compute_RDP`: the frame's centroid. -/
noncomputable def centroid (frame : List (ℝ × ℝ × ℝ)) : ℝ × ℝ × ℝ :=
  (lmean (frame.map fun p => p.1), lmean (frame.map fun p => p.2.1),
    lmean (frame.map fun p => p.2.2))

/-- `cndbTools.compute_RDP`: with `deltaR = radius/bins`, accumulate
`calc_gr(centroid, frame, radius, deltaR)` over the frames starting from
`np.zeros(bins)`, build the shell radii `np.arange(0, int(radius+deltaR),
deltaR)`, and return the radii together with the accumulated profile
divided by the frame count. -/
noncomputable def compute_RDP (xyz : List (List (ℝ × ℝ × ℝ)))
    (radius : ℝ) (bins : Nat) : List ℝ × List ℝ :=
  let deltaR := radius / bins
  let g_rdf := xyz.foldl
    (fun acc frame => List.zipWith (fun u v => u + v) acc
      (calc_gr (centroid frame) frame radius deltaR))
    (List.replicate bins 0)
  let Rx := (List.range ⌈((⌊radius + deltaR⌋₊ : Nat) : ℝ) / deltaR⌉₊).map
    fun i => (i : ℝ) * deltaR
  (Rx, g_rdf.map fun v => v / (xyz.length : ℝ))

/-- `calc_prob` inside `traj2HiC`, as the `(i, j)` entry of the per-frame
contact matrix `0.5*(1.0 + np.tanh(mu*(rc - cdist(data, data))))`; the
distance is the Euclidean distance between beads `i` and `j` of the frame. -/
noncomputable def calc_prob (data : List (ℝ × ℝ × ℝ)) (mu rc : ℝ) (i j : Nat) : ℝ :=
  0.5 * (1 + Real.tanh (mu * (rc - calcDist (data.getD i (0, 0, 0)) (data.getD j (0, 0, 0)))))

/-- `cndbTools.traj2HiC` as the `(i, j)` entry of the returned matrix: the
per-frame contact matrices summed over all frames and divided by the frame
count. -/
noncomputable def traj2HiC (xyz : List (List (ℝ × ℝ × ℝ))) (mu rc : ℝ) (i j : Nat) : ℝ :=
  ((xyz.map fun data => calc_prob data mu rc i j).sum) / (xyz.length : ℝ)

end Analysis

/-! ### Concrete frame stores used for the closed scenario theorems -/

/-- The concatenation of the type labels of a list of structure blocks, in
file order (the converter's `types` accumulator is never cleared, so it
grows across blocks). -/
def labelsOf : List (List (String × (ℚ × ℚ × ℚ))) → List String
  | [] => []
  | b :: bs => b.map (fun tp => tp.1) ++ labelsOf bs

/-- A container's frame store with one bead and two stored frames, keys 1
and 2. -/
def storeC2 : ℤ → Option (List (List ℚ)) := fun i =>
  if i = 1 then some [[1, 2, 3]]
  else if i = 2 then some [[4, 5, 6]]
  else none

/-- A container's frame store with four beads and one stored frame, key 1. -/
def storeC7 : ℤ → Option (List (List ℚ)) := fun i =>
  if i = 1 then some [[10, 11, 12], [20, 21, 22], [30, 31, 32], [40, 41, 42]] else none

/-- A container's frame store with two beads and one stored frame, key 1. -/
def storeC8 : ℤ → Option (List (List ℚ)) := fun i =>
  if i = 1 then some [[1, 2, 3], [4, 5, 6]] else none

/-! ## Helper lemmas -/

theorem exceptMapM_ok {α β ε : Type} (f : α → Except ε β) (g : α → β) :
    ∀ (l : List α), (∀ a ∈ l, f a = Except.ok (g a)) → l.mapM f = Except.ok (l.map g) := by
  intro l
  induction l with
  | nil => intro _; rfl
  | cons a t ih =>
    intro h
    rw [List.mapM_cons, h a (by simp), ih (fun x hx => h x (by simp [hx]))]
    rfl

theorem exceptMapM_cons_error {α β ε : Type} (f : α → Except ε β) (a : α)
    (l : List α) (e : ε) (h : f a = Except.error e) :
    (a :: l).mapM f = Except.error e := by
  rw [List.mapM_cons, h]
  rfl

theorem npIndex_of_nonneg {n : Nat} {i : ℤ} (h0 : 0 ≤ i) (h1 : i < (n : ℤ)) :
    npIndex n i = some i.toNat := by
  unfold npIndex
  rw [if_pos ⟨h0, h1⟩]

theorem npIndex_eq_none {n : Nat} {i : ℤ} (h : i < -(n : ℤ) ∨ (n : ℤ) ≤ i) :
    npIndex n i = none := by
  unfold npIndex
  rw [if_neg (by omega), if_neg (by omega)]

theorem npGet_ok {α : Type} (xs : List α) (i : ℤ) (d : α)
    (h0 : 0 ≤ i) (h1 : i < (xs.length : ℤ)) :
    npGet xs i = Except.ok (xs.getD i.toNat d) := by
  have hlt : i.toNat < xs.length := by omega
  simp only [npGet, npIndex_of_nonneg h0 h1, List.getElem?_eq_getElem hlt,
    List.getD_eq_getElem xs d hlt]

theorem npGet_cases {α : Type} (xs : List α) (i : ℤ) :
    npGet xs i = Except.error "IndexError" ∨ ∃ v, npGet xs i = Except.ok v := by
  unfold npGet
  split
  · split
    · right; exact ⟨_, rfl⟩
    · left; rfl
  · left; rfl

theorem npTake_ok {α : Type} (xs : List α) (idx : List ℤ) (d : α)
    (h : ∀ b ∈ idx, 0 ≤ b ∧ b < (xs.length : ℤ)) :
    npTake xs idx = Except.ok (idx.map fun b => xs.getD b.toNat d) := by
  unfold npTake
  exact exceptMapM_ok _ _ idx fun b hb => npGet_ok xs b d (h b hb).1 (h b hb).2

theorem npTake_error {α : Type} (xs : List α) (idx : List ℤ)
    (h : ∃ b ∈ idx, npIndex xs.length b = none) :
    npTake xs idx = Except.error "IndexError" := by
  unfold npTake
  induction idx with
  | nil => simp at h
  | cons a t ih =>
    rcases h with ⟨b, hb, hnone⟩
    rcases List.mem_cons.mp hb with h1 | h1
    · subst h1
      apply exceptMapM_cons_error
      simp only [npGet, hnone]
    · rcases npGet_cases xs a with herr | ⟨v, hok⟩
      · exact exceptMapM_cons_error _ _ _ _ herr
      · rw [List.mapM_cons, hok, ih ⟨b, h1, hnone⟩]
        rfl

theorem xyzFrame_ok (sel XYZ : List ℤ) (arr : List (List ℚ))
    (hsel : ∀ b ∈ sel, 0 ≤ b ∧ b < (arr.length : ℤ))
    (hax : ∀ a ∈ XYZ, 0 ≤ a ∧ a < 3)
    (hrow : ∀ row ∈ arr, row.length = 3) :
    xyzFrame sel XYZ (some arr) =
      Except.ok (sel.map fun b => XYZ.map fun a => (arr.getD b.toNat []).getD a.toNat 0) := by
  show (npTake arr sel).bind (fun rows => rows.mapM fun row => npTake row XYZ) = _
  rw [npTake_ok arr sel [] hsel]
  have hmem : ∀ b ∈ sel, arr.getD b.toNat [] ∈ arr := by
    intro b hb
    have hlt : b.toNat < arr.length := by
      have := hsel b hb
      omega
    rw [List.getD_eq_getElem arr [] hlt]
    exact List.getElem_mem hlt
  have hrows : (sel.map fun b => arr.getD b.toNat []).mapM (fun row => npTake row XYZ)
      = Except.ok ((sel.map fun b => arr.getD b.toNat []).map
          fun row => XYZ.map fun a => row.getD a.toNat 0) := by
    apply exceptMapM_ok
    intro row hrowmem
    apply npTake_ok
    intro a ha
    have h3 : row.length = 3 := by
      rcases List.mem_map.mp hrowmem with ⟨b, hb, hbeq⟩
      exact hrow row (hbeq ▸ hmem b hb)
    rw [h3]
    exact_mod_cast hax a ha
  show (sel.map fun b => arr.getD b.toNat []).mapM (fun row => npTake row XYZ) = _
  rw [hrows, List.map_map]
  rfl

theorem xyz_ok (Nb Nf : Nat) (cndb : ℤ → Option (List (List ℚ)))
    (r : FrameRange) (sel XYZ : List ℤ)
    (hsel : ∀ b ∈ sel, 0 ≤ b ∧ b < (Nb : ℤ))
    (hax : ∀ a ∈ XYZ, 0 ≤ a ∧ a < 3)
    (hfr : ∀ i ∈ frameIndices r Nf, ∃ arr, cndb i = some arr ∧ arr.length = Nb
      ∧ ∀ row ∈ arr, row.length = 3) :
    (xyz Nb Nf cndb r (some sel) XYZ).2 =
      Except.ok ((frameIndices r Nf).map fun i =>
        sel.map fun b => XYZ.map fun a =>
          (((cndb i).getD []).getD b.toNat []).getD a.toNat 0) := by
  show xyzTensor Nb Nf cndb r (some sel) XYZ = _
  unfold xyzTensor
  apply exceptMapM_ok
  intro i hi
  obtain ⟨arr, harr, hlen, hrow⟩ := hfr i hi
  rw [harr]
  rw [xyzFrame_ok sel XYZ arr (by rw [hlen]; exact hsel) hax hrow]
  rw [show (some arr).getD ([] : List (List ℚ)) = arr from rfl]

theorem xyz_bad_bead_error (Nb Nf : Nat) (cndb : ℤ → Option (List (List ℚ)))
    (r : FrameRange) (sel XYZ : List ℤ) (i : ℤ) (rest : List ℤ)
    (arr : List (List ℚ)) (b : ℤ)
    (hfr : frameIndices r Nf = i :: rest)
    (harr : cndb i = some arr)
    (hb : b ∈ sel)
    (hbad : b < -(arr.length : ℤ) ∨ (arr.length : ℤ) ≤ b) :
    (xyz Nb Nf cndb r (some sel) XYZ).2 = Except.error "IndexError" := by
  show xyzTensor Nb Nf cndb r (some sel) XYZ = _
  unfold xyzTensor
  rw [hfr]
  apply exceptMapM_cons_error
  show xyzFrame sel XYZ (cndb i) = _
  rw [harr]
  show (npTake arr sel).bind (fun rows => rows.mapM fun row => npTake row XYZ) = _
  rw [npTake_error arr sel ⟨b, hb, npIndex_eq_none hbad⟩]
  rfl

theorem pyRangeAux_one_length : ∀ (n : Nat) (a b : ℤ), n = (b - a).toNat →
    (pyRangeAux n a b 1).length = n := by
  intro n
  induction n with
  | zero => intro a b _; rfl
  | succ m ih =>
    intro a b h
    have hab : a < b := by omega
    unfold pyRangeAux
    rw [if_pos hab]
    simp only [List.length_cons]
    rw [ih (a + 1) b (by omega)]

theorem frameIndices_default_length (F : Nat) :
    (frameIndices ⟨1, none, 1⟩ F).length = F - 1 := by
  unfold frameIndices stopOf pyRange
  simp only [Option.getD_none]
  rw [if_pos (by norm_num : (0 : ℤ) < 1)]
  rw [pyRangeAux_one_length _ 1 F rfl]
  omega

theorem foldl_chroms (fr : List (String × (ℚ × ℚ × ℚ))) : ∀ (s : NdbState),
    List.foldl stepNdb s (fr.map fun tp => NdbRecord.chrom tp.1 tp.2.1 tp.2.2.1 tp.2.2.2)
      = { s with types := s.types ++ fr.map (fun tp => tp.1),
                 xs := s.xs ++ fr.map (fun tp => tp.2.1),
                 ys := s.ys ++ fr.map (fun tp => tp.2.2.1),
                 zs := s.zs ++ fr.map (fun tp => tp.2.2.2) } := by
  induction fr with
  | nil => intro s; simp
  | cons tp tl ih =>
    intro s
    simp only [List.map_cons, List.foldl_cons, stepNdb, ih]
    simp

theorem foldl_block (fr : List (String × (ℚ × ℚ × ℚ))) (s : NdbState)
    (hx : s.xs = []) (hy : s.ys = []) (hz : s.zs = []) :
    List.foldl stepNdb s (blockOf fr) =
      { s with frame := s.frame + 1,
               types := s.types ++ fr.map (fun tp => tp.1),
               types_bool := false,
               cndbf := s.cndbf ++
                 (if s.types_bool then
                    [("types", CndbValue.ints ((s.types ++ fr.map fun tp => tp.1).map typeCode))]
                  else []) ++
                 [(toString (s.frame + 1), frameVal fr)],
               xs := [], ys := [], zs := [] } := by
  unfold blockOf
  simp only [List.foldl_append, List.foldl_cons, List.foldl_nil]
  rw [show stepNdb s NdbRecord.model = { s with frame := s.frame + 1 } from rfl]
  rw [foldl_chroms]
  by_cases hb : s.types_bool
  · simp [stepNdb, hb, hx, hy, hz, frameVal, List.zip_map', List.append_assoc]
  · simp [stepNdb, hb, hx, hy, hz, frameVal, List.zip_map', List.append_assoc]

theorem foldl_blocks : ∀ (bs : List (List (String × (ℚ × ℚ × ℚ)))) (s : NdbState),
    s.xs = [] → s.ys = [] → s.zs = [] → s.types_bool = false →
    List.foldl stepNdb s (buildNdb bs) =
      { s with frame := s.frame + bs.length,
               types := s.types ++ labelsOf bs,
               cndbf := s.cndbf ++ expectedFrames bs s.frame } := by
  intro bs
  induction bs with
  | nil =>
    intro s hx hy hz hb
    simp [buildNdb, labelsOf, expectedFrames]
  | cons b bs ih =>
    intro s hx hy hz hb
    show List.foldl stepNdb s (blockOf b ++ buildNdb bs) = _
    rw [List.foldl_append, foldl_block b s hx hy hz, hb]
    rw [ih _ rfl rfl rfl rfl]
    simp [labelsOf, expectedFrames, List.append_assoc]
    exact ⟨hx, hy, hz, by omega⟩

theorem ndb2cndb_blocks (b : List (String × (ℚ × ℚ × ℚ)))
    (bs : List (List (String × (ℚ × ℚ × ℚ)))) :
    ndb2cndb (buildNdb (b :: bs)) =
      ("types", typesVal b) :: expectedFrames (b :: bs) 0 := by
  unfold ndb2cndb
  show (if 0 < (List.foldl stepNdb initNdbState (buildNdb (b :: bs))).loop then _ else _) = _
  rw [show buildNdb (b :: bs) = blockOf b ++ buildNdb bs from rfl]
  rw [List.foldl_append, foldl_block b initNdbState rfl rfl rfl]
  rw [show initNdbState.types_bool = true from rfl]
  rw [foldl_blocks bs _ rfl rfl rfl rfl]
  simp [initNdbState, typesVal, expectedFrames, List.map_map]

theorem expectedFrames_length : ∀ (bs : List (List (String × (ℚ × ℚ × ℚ)))) (k : Nat),
    (expectedFrames bs k).length = bs.length := by
  intro bs
  induction bs with
  | nil => intro k; rfl
  | cons b bs ih => intro k; simp [expectedFrames, ih]

theorem expectedFrames_keys : ∀ (bs : List (List (String × (ℚ × ℚ × ℚ)))) (k : Nat),
    (expectedFrames bs k).map Prod.fst
      = (List.range bs.length).map (fun m => toString (k + m + 1)) := by
  intro bs
  induction bs with
  | nil => intro k; rfl
  | cons b bs ih =>
    intro k
    simp only [expectedFrames, List.map_cons, List.length_cons, List.range_succ_eq_map,
      List.map_map, ih, Nat.add_zero]
    congr 1
    apply List.map_congr_left
    intro m _
    simp only [Function.comp_apply]
    congr 1
    omega

theorem expectedFrames_are_frames : ∀ (bs : List (List (String × (ℚ × ℚ × ℚ)))) (k : Nat),
    ∀ e ∈ expectedFrames bs k, ∃ ps, e.2 = CndbValue.frame ps := by
  intro bs
  induction bs with
  | nil => intro k e he; simp [expectedFrames] at he
  | cons b bs ih =>
    intro k e he
    rcases List.mem_cons.mp he with h1 | h1
    · refine ⟨b.map fun tp => tp.2, ?_⟩
      rw [h1]
      rfl
    · exact ih (k + 1) e h1

theorem calcDist_comm (a b : ℝ × ℝ × ℝ) : calcDist a b = calcDist b a := by
  unfold calcDist
  congr 1
  ring

theorem calcDist_self (a : ℝ × ℝ × ℝ) : calcDist a a = 0 := by
  unfold calcDist
  simp

theorem getD_range_map (n k : Nat) (f : Nat → ℝ) (hk : k < n) :
    (((List.range n).map f).getD k 0) = f k := by
  have hlen : k < ((List.range n).map f).length := by simp [hk]
  rw [List.getD_eq_getElem _ _ hlen, List.getElem_map, List.getElem_range]

theorem shellCount_cons (ref p : ℝ × ℝ × ℝ) (pos : List (ℝ × ℝ × ℝ)) (raddi dr : ℝ) :
    shellCount ref (p :: pos) raddi dr =
      (if raddi ≤ calcDist p ref ∧ calcDist p ref < raddi + dr then (1 : ℝ) else 0)
        + shellCount ref pos raddi dr := by
  unfold shellCount
  rw [List.map_cons, List.sum_cons]

theorem sum_map_sub (xs : List ℝ) (c : ℝ) :
    (xs.map fun x => x - c).sum = xs.sum - xs.length * c := by
  induction xs with
  | nil => simp
  | cons a t ih =>
    simp only [List.map_cons, List.sum_cons, ih, List.length_cons]
    push_cast
    ring

theorem centerList_sum (xs : List ℝ) : (centerList xs).sum = 0 := by
  unfold centerList lmean
  rw [sum_map_sub]
  rcases Nat.eq_zero_or_pos xs.length with h | h
  · have hnil : xs = [] := List.length_eq_zero.mp h
    subst hnil
    simp
  · have hne : (xs.length : ℝ) ≠ 0 := Nat.cast_ne_zero.mpr h.ne'
    field_simp

theorem lmean_centerList (xs : List ℝ) : lmean (centerList xs) = 0 := by
  unfold lmean
  rw [centerList_sum, zero_div]

theorem centerList_idem (xs : List ℝ) : centerList (centerList xs) = centerList xs := by
  show (centerList xs).map (fun x => x - lmean (centerList xs)) = centerList xs
  rw [lmean_centerList]
  simp

theorem centerList_replicate (n : Nat) (c : ℝ) :
    centerList (List.replicate n c) = List.replicate n 0 := by
  unfold centerList lmean
  rcases Nat.eq_zero_or_pos n with h | h
  · subst h; rfl
  · rw [List.sum_replicate, List.length_replicate, nsmul_eq_mul, List.map_replicate]
    rw [mul_div_cancel_left₀ c (by exact_mod_cast h.ne')]
    rw [sub_self]

/-! ## The claims -/

/-- C1 (corrected).  The claim reads: in `compute_RDP`, a bead's distance to
the frame centroid is binned into shell `k` exactly when it falls in
`[k·dr, (k+1)·dr)`, so a bead at the centroid is counted in shell 0.  The
code's `while` loop starts its running radius at `dr`, not `0`, so the
refuting instance here is a frame consisting of one bead, which sits at the
centroid: shell 0's pre-normalization count (`raddi = dr`, here `1`) is `0`,
not `1`, and the whole returned profile is zero. -/
theorem c1_rdp_binning_counterexample :
    shellCount (0, 0, 0) [((0 : ℝ), 0, 0)] 1 1 = 0
      ∧ (compute_RDP [[((0 : ℝ), 0, 0)]] 2 2).2 = [0, 0] := by
  constructor
  · unfold shellCount
    rw [List.map_cons, List.map_nil, List.sum_cons, List.sum_nil]
    rw [calcDist_self]
    norm_num
  · unfold compute_RDP
    simp only [List.foldl_cons, List.foldl_nil, List.length_cons, List.length_nil]
    have hdr : (2 : ℝ) / ((2 : Nat) : ℝ) = 1 := by norm_num
    rw [hdr]
    have hcent : centroid [((0 : ℝ), 0, 0)] = (0, 0, 0) := by
      unfold centroid lmean
      norm_num
    rw [hcent]
    have hgr : calc_gr (0, 0, 0) [((0 : ℝ), 0, 0)] 2 1 = [0, 0] := by
      unfold calc_gr
      rw [show ⌊(2 : ℝ) / 1⌋₊ = 2 by norm_num]
      rw [show List.range 2 = [0, 1] from rfl]
      rw [List.map_cons, List.map_cons, List.map_nil]
      unfold shellCount
      rw [List.map_cons, List.map_nil]
      rw [calcDist_self]
      norm_num
      rw [calcDist_self]
      norm_num
    rw [hgr]
    norm_num [List.zipWith]

/-- C1 (corrected), the amended claim: in `compute_RDP`'s `calc_gr`, shell
`k` counts a bead exactly when its Euclidean distance to the reference
point lies in `[(k+1)·dr, (k+2)·dr)` — the loop's running radius starts at
`dr`, one shell above the claim's `[k·dr, (k+1)·dr)`.  First part: adding a
bead to the frame changes shell `k`'s (volume-normalized) entry by
`1/(4π·dr·((k+1)dr)²)` exactly when the bead's distance is in
`[(k+1)·dr, (k+2)·dr)`, and by nothing otherwise.  Second part: a single
bead strictly closer than `dr` to the reference — in particular a bead at
the centroid, distance 0 — is counted in no shell at all: the whole profile
is zero. -/
theorem c1_rdp_binning_corrected :
    (∀ (ref p : ℝ × ℝ × ℝ) (pos : List (ℝ × ℝ × ℝ)) (R dr : ℝ) (k : Nat),
      0 < dr → k < ⌊R / dr⌋₊ →
      (calc_gr ref (p :: pos) R dr).getD k 0 - (calc_gr ref pos R dr).getD k 0
        = if ((k : ℝ) + 1) * dr ≤ calcDist p ref ∧ calcDist p ref < ((k : ℝ) + 2) * dr
          then 1 / (4 * Real.pi * dr * (((k : ℝ) + 1) * dr) ^ 2) else 0)
    ∧ (∀ (ref p : ℝ × ℝ × ℝ) (R dr : ℝ), 0 < dr → calcDist p ref < dr →
        calc_gr ref [p] R dr = List.replicate ⌊R / dr⌋₊ 0) := by
  constructor
  · intro ref p pos R dr k hdr hk
    unfold calc_gr
    rw [getD_range_map _ _ _ hk, getD_range_map _ _ _ hk]
    rw [shellCount_cons]
    have harith : ((k : ℝ) + 1) * dr + dr = ((k : ℝ) + 2) * dr := by ring
    rw [harith]
    have hv : (4 * Real.pi * dr * (((k : ℝ) + 1) * dr) ^ 2) ≠ 0 := by
      have hπ : Real.pi ≠ 0 := Real.pi_ne_zero
      have hkd : ((k : ℝ) + 1) * dr ≠ 0 := by positivity
      positivity
    by_cases hc : ((k : ℝ) + 1) * dr ≤ calcDist p ref ∧ calcDist p ref < ((k : ℝ) + 2) * dr
    · rw [if_pos hc, if_pos hc]
      field_simp
    · rw [if_neg hc, if_neg hc]
      ring
  · intro ref p R dr hdr hnear
    unfold calc_gr
    refine List.eq_replicate_iff.mpr ⟨by simp, ?_⟩
    intro v hv
    rcases List.mem_map.mp hv with ⟨k, hk, hkeq⟩
    have hcond : ¬(((k : ℝ) + 1) * dr ≤ calcDist p ref
        ∧ calcDist p ref < ((k : ℝ) + 1) * dr + dr) := by
      intro hc
      have h1 : dr ≤ ((k : ℝ) + 1) * dr := by
        nlinarith [Nat.cast_nonneg (α := ℝ) k]
      linarith [hc.1]
    rw [← hkeq]
    unfold shellCount
    rw [List.map_cons, List.map_nil, List.sum_cons, List.sum_nil]
    rw [if_neg hcond]
    norm_num

/-- Witness for C1: the amended theorem applied at `ref = p = (0,0,0)`,
`R = 3`, `dr = 1`, and at shell `k = 0` with an empty rest-frame. -/
theorem c1_rdp_binning_corrected_witness :
    ((calc_gr (0, 0, 0) [((0 : ℝ), 0, 0)] 3 1).getD 0 0
        - (calc_gr (0, 0, 0) [] 3 1).getD 0 0
      = if ((0 : ℕ) : ℝ) + 1 ≤ calcDist ((0 : ℝ), 0, 0) (0, 0, 0)
            ∧ calcDist ((0 : ℝ), 0, 0) (0, 0, 0) < ((0 : ℕ) : ℝ) + 2
          then 1 / (4 * Real.pi * 1 * ((((0 : ℕ) : ℝ) + 1) * 1) ^ 2) else 0)
    ∧ calc_gr (0, 0, 0) [((0 : ℝ), 0, 0)] 3 1 = List.replicate ⌊(3 : ℝ) / 1⌋₊ 0 := by
  constructor
  · have h := c1_rdp_binning_corrected.1 (0, 0, 0) ((0 : ℝ), 0, 0) [] 3 1 0
      (by norm_num) (by rw [div_one]; norm_num)
    simpa using h
  · exact c1_rdp_binning_corrected.2 (0, 0, 0) ((0 : ℝ), 0, 0) 3 1 (by norm_num)
      (by rw [calcDist_self]; norm_num)

/-- C2 (code bug).  The claim — and `xyz`'s own docstring ("Default value =
`[1,None,1]`, all frames") — says the default frame range reads every stored
frame `1..F`.  But the loop is `range(frames[0], frames[1], frames[2])`
with the stop exclusive, so after `None` defaults to `F` the loop reads
keys `1..F-1` only.  On `storeC2` (frames 1 and 2 stored): with `Nframes =
2` the default call returns only frame 1's data, and with a one-frame
trajectory (`Nframes = 1`) it returns an empty tensor although frame 1 is
stored.  In general the default range covers `F - 1` keys, not `F`. -/
theorem c2_default_range_drops_last_frame :
    (xyz 1 2 storeC2 ⟨1, none, 1⟩ none [0, 1, 2]).2 = Except.ok [[[1, 2, 3]]]
      ∧ storeC2 2 = some [[4, 5, 6]]
      ∧ (xyz 1 1 storeC2 ⟨1, none, 1⟩ none [0, 1, 2]).2 = Except.ok []
      ∧ ∀ (F : Nat), (frameIndices ⟨1, none, 1⟩ F).length = F - 1 :=
  ⟨rfl, rfl, rfl, frameIndices_default_length⟩

/-- C3 (corrected).  The claim reads: each of the 7 canonical labels of a
legacy ndb source round-trips through encode (the converter's table) and
decode (the loader's inverse table).  The converter's seventh label is
`UN` (code 6), but the loader's table maps 6 to `NA`, so `UN` comes back as
`NA`. -/
theorem c3_type_roundtrip_counterexample :
    (ndbType_conversion "UN").bind Type_conversionInv = some "NA"
      ∧ (ndbType_conversion "UN").bind Type_conversionInv ≠ some "UN" := by
  decide

/-- C3 (corrected), the amended claim: the round-trip through the
converter's table and the loader's inverse table reproduces the label for
the six labels `A1, A2, B1, B2, B3, B4`; the seventh ndb label `UN` encodes
to code 6, which the loader decodes as `NA`. -/
theorem c3_type_roundtrip_corrected :
    (∀ l ∈ (["A1", "A2", "B1", "B2", "B3", "B4"] : List String),
      (ndbType_conversion l).bind Type_conversionInv = some l)
    ∧ (ndbType_conversion "UN").bind Type_conversionInv = some "NA" := by
  decide

/-- Witness for C3: the amended theorem applied at the label `A1`. -/
theorem c3_type_roundtrip_corrected_witness :
    (ndbType_conversion "A1").bind Type_conversionInv = some "A1" :=
  c3_type_roundtrip_corrected.1 "A1" (by decide)

/-- C10 (confirmed).  When the `frames` argument's stop entry is `None`,
`xyz` assigns the trajectory's frame count into the caller's list before
iterating: the returned (mutated) range is `[1, F, 1]`.  Since Python
evaluates the default `frames=[1,None,1]` once and shares it, the first
default call permanently stores `F` as the default's stop: any later call
receiving the mutated list iterates `range(1, F, 1)` no matter the current
frame count `F2`, and the first call itself iterates the same range it
wrote. -/
theorem c10_frames_mutation :
    ∀ (Nb F : Nat) (cndb : ℤ → Option (List (List ℚ)))
      (bsel : Option (List ℤ)) (XYZ : List ℤ),
      (xyz Nb F cndb ⟨1, none, 1⟩ bsel XYZ).1 = ⟨1, some (F : ℤ), 1⟩
      ∧ (xyz Nb F cndb ⟨1, none, 1⟩ bsel XYZ).2
          = (xyz Nb F cndb ⟨1, some (F : ℤ), 1⟩ bsel XYZ).2
      ∧ ∀ (F2 : Nat), frameIndices ((xyz Nb F cndb ⟨1, none, 1⟩ bsel XYZ).1) F2
          = pyRange 1 (F : ℤ) 1 :=
  fun _ _ _ _ _ => ⟨rfl, rfl, fun _ => rfl⟩

/-- C4 (confirmed).  Converting a legacy file of `M ≥ 1` structure blocks
(`MODEL`/`ENDMDL` pairs), each holding `N` coordinate records, and no loop
records, yields a container whose keys are exactly `types` followed by the
frame keys `"1" .. "M"`; loading that container reports `Nbeads = N` (the
length of the `types` array) and `Nframes = M` (the key count minus one).
The first block's labels must lie in the converter's table (`hlbl`): at the
first `ENDMDL` the source translates exactly those labels through
`Type_conversion[x]`, and an out-of-table label raises `KeyError` there, so
no container is produced for such a file; later blocks' labels are never
translated by that line. -/
theorem c4_ndb_roundtrip (b : List (String × (ℚ × ℚ × ℚ)))
    (bs : List (List (String × (ℚ × ℚ × ℚ)))) (N : Nat)
    (hN : ∀ fr ∈ b :: bs, fr.length = N)
    (_hlbl : ∀ tp ∈ b, (ndbType_conversion tp.1).isSome) :
    (ndb2cndb (buildNdb (b :: bs))).map Prod.fst
        = "types" :: (List.range (b :: bs).length).map (fun m => toString (m + 1))
      ∧ loadNbeads (ndb2cndb (buildNdb (b :: bs))) = some N
      ∧ loadNframes (ndb2cndb (buildNdb (b :: bs))) = (b :: bs).length := by
  rw [ndb2cndb_blocks]
  refine ⟨?_, ?_, ?_⟩
  · simp only [List.map_cons, expectedFrames_keys]
    simp
  · unfold loadNbeads getTypes
    rw [List.lookup_cons_self]
    show some ((b.map fun tp => typeCode tp.1).length) = some N
    rw [List.length_map]
    exact congrArg some (hN b (by simp))
  · unfold loadNframes
    simp [expectedFrames_length]

/-- Witness for C4: the round-trip theorem applied to a two-block file with
one coordinate record per block. -/
theorem c4_ndb_roundtrip_witness :
    loadNframes (ndb2cndb (buildNdb
        [[("A1", ((1 : ℚ), 2, 3))], [("B1", ((4 : ℚ), 5, 6))]])) = 2
      ∧ loadNbeads (ndb2cndb (buildNdb
        [[("A1", ((1 : ℚ), 2, 3))], [("B1", ((4 : ℚ), 5, 6))]])) = some 1 :=
  ⟨(c4_ndb_roundtrip [("A1", ((1 : ℚ), 2, 3))] [[("B1", ((4 : ℚ), 5, 6))]] 1
      (by decide) (by decide)).2.2,
    (c4_ndb_roundtrip [("A1", ((1 : ℚ), 2, 3))] [[("B1", ((4 : ℚ), 5, 6))]] 1
      (by decide) (by decide)).2.1⟩

/-- C9 (confirmed).  During conversion the trajectory-wide type array is
written exactly once, at the first `ENDMDL`: the output container is the
`types` entry — holding the first block's labels pushed through the fixed
table — followed by entries that are all coordinate-frame arrays, so no
later write touches the type array, whatever labels later frames carry;
looking `types` up in the converted container returns the first frame's
translated label sequence. -/
theorem c9_types_committed_once (b : List (String × (ℚ × ℚ × ℚ)))
    (bs : List (List (String × (ℚ × ℚ × ℚ))))
    (_hlbl : ∀ tp ∈ b, (ndbType_conversion tp.1).isSome) :
    ndb2cndb (buildNdb (b :: bs))
        = ("types", CndbValue.ints (b.map fun tp => typeCode tp.1))
            :: expectedFrames (b :: bs) 0
      ∧ (∀ e ∈ expectedFrames (b :: bs) 0, ∃ ps, e.2 = CndbValue.frame ps)
      ∧ (ndb2cndb (buildNdb (b :: bs))).lookup "types"
          = some (CndbValue.ints (b.map fun tp => typeCode tp.1)) := by
  refine ⟨ndb2cndb_blocks b bs, expectedFrames_are_frames (b :: bs) 0, ?_⟩
  rw [ndb2cndb_blocks]
  exact List.lookup_cons_self

/-- Witness for C9: the theorem applied to a two-block file whose second
block carries a different label than the first; the committed `types` array
is the first block's code. -/
theorem c9_types_committed_once_witness :
    (ndb2cndb (buildNdb [[("A1", ((0 : ℚ), 0, 0))], [("B2", ((1 : ℚ), 1, 1))]])).lookup "types"
      = some (CndbValue.ints [0]) :=
  (c9_types_committed_once [("A1", ((0 : ℚ), 0, 0))] [[("B2", ((1 : ℚ), 1, 1))]]
    (by decide)).2.2

/-- C5 (confirmed).  For every non-empty coordinate tensor and any `mu`,
`rc`, the averaged contact matrix of `traj2HiC` is symmetric — entry
`(i, j)` equals entry `(j, i)` — and every diagonal entry equals the
constant `0.5·(1 + tanh(mu·rc))` independently of the coordinates, because
the self-distance is zero in every frame. -/
theorem c5_hic_symmetry_diagonal (X : List (List (ℝ × ℝ × ℝ))) (mu rc : ℝ)
    (h : X ≠ []) (i j : Nat) :
    traj2HiC X mu rc i j = traj2HiC X mu rc j i
      ∧ traj2HiC X mu rc i i = 0.5 * (1 + Real.tanh (mu * rc)) := by
  constructor
  · unfold traj2HiC
    congr 2
    apply List.map_congr_left
    intro data _
    unfold calc_prob
    rw [calcDist_comm]
  · unfold traj2HiC
    have hmap : X.map (fun data => calc_prob data mu rc i i)
        = X.map (fun _ => 0.5 * (1 + Real.tanh (mu * rc))) := by
      apply List.map_congr_left
      intro data _
      unfold calc_prob
      rw [calcDist_self, sub_zero]
    rw [hmap, List.map_const']
    rw [List.sum_replicate, nsmul_eq_mul]
    have hlen : (X.length : ℝ) ≠ 0 :=
      Nat.cast_ne_zero.mpr (List.length_pos.mpr h).ne'
    field_simp

/-- Witness for C5: the theorem applied to the one-frame, one-bead tensor
`[[(0,0,0)]]` with `mu = rc = 1`, at the entries `(0,1)` and `(0,0)`. -/
theorem c5_hic_symmetry_diagonal_witness :
    traj2HiC [[((0 : ℝ), 0, 0)]] 1 1 0 1 = traj2HiC [[((0 : ℝ), 0, 0)]] 1 1 1 0
      ∧ traj2HiC [[((0 : ℝ), 0, 0)]] 1 1 0 0 = 0.5 * (1 + Real.tanh (1 * 1)) :=
  ⟨(c5_hic_symmetry_diagonal [[((0 : ℝ), 0, 0)]] 1 1 (by simp) 0 1).1,
    (c5_hic_symmetry_diagonal [[((0 : ℝ), 0, 0)]] 1 1 (by simp) 0 0).2⟩

/-- C6 (confirmed).  `compute_RG` returns one value per frame in frame
order, each the square root of the sum over the three axes of the
population variance of the frame's mean-centered coordinates (`RG_spec`,
written from the spec's formula); on the 2-bead frame `[[0,0,0],[2,0,0]]`
it returns exactly `1`, and on a frame of `n` identical points it returns
exactly `0`. -/
theorem c6_rg_formula_scenarios :
    (∀ (X : List (List (ℝ × ℝ × ℝ))), compute_RG X = X.map RG_spec)
      ∧ compute_RG [[((0 : ℝ), 0, 0), (2, 0, 0)]] = [1]
      ∧ ∀ (n : Nat) (p : ℝ × ℝ × ℝ), 0 < n → compute_RG [List.replicate n p] = [0] := by
  refine ⟨?_, ?_, ?_⟩
  · intro X
    unfold compute_RG RG_spec
    apply List.map_congr_left
    intro frame _
    simp only [npVarList, centerList_idem]
  · simp only [compute_RG, npVarList, centerList, lmean, List.map_cons, List.map_nil]
    norm_num
  · intro n p hn
    unfold compute_RG
    rw [List.map_cons, List.map_nil]
    congr 1
    rw [List.map_replicate, List.map_replicate, List.map_replicate]
    rw [centerList_replicate, centerList_replicate, centerList_replicate]
    have hv : npVarList (List.replicate n (0 : ℝ)) = 0 := by
      unfold npVarList
      rw [centerList_replicate, List.map_replicate]
      norm_num
      unfold lmean
      rw [List.sum_replicate]
      simp
    rw [hv]
    norm_num

/-- Witness for C6: the identical-points part applied at `n = 3`,
`p = (5,5,5)`. -/
theorem c6_rg_formula_scenarios_witness :
    compute_RG [List.replicate 3 ((5 : ℝ), 5, 5)] = [0] :=
  c6_rg_formula_scenarios.2.2 3 ((5 : ℝ), 5, 5) (by norm_num)

/-- C7 (confirmed).  `xyz` honours the caller's ordering.  General part:
when every selected bead index is in range and every axis index is one of
`0,1,2`, row `r` of each output frame is the stored row at `selection[r]`
and column `c` is the stored coordinate at axis `XYZ[c]` — the output is
exactly the selection-ordered, axis-ordered re-indexing of each stored
frame.  Concrete parts, on a 4-bead frame: bead selection `[3,1,2]` puts
the original bead 3 in row 0, and axis selection `[2,0]` yields column 0 =
Z and column 1 = X. -/
theorem c7_selection_order :
    (∀ (Nb Nf : Nat) (cndb : ℤ → Option (List (List ℚ))) (r : FrameRange)
        (sel XYZ : List ℤ),
      (∀ b ∈ sel, 0 ≤ b ∧ b < (Nb : ℤ)) →
      (∀ a ∈ XYZ, 0 ≤ a ∧ a < 3) →
      (∀ i ∈ frameIndices r Nf, ∃ arr, cndb i = some arr ∧ arr.length = Nb
        ∧ ∀ row ∈ arr, row.length = 3) →
      (xyz Nb Nf cndb r (some sel) XYZ).2 =
        Except.ok ((frameIndices r Nf).map fun i =>
          sel.map fun b => XYZ.map fun a =>
            (((cndb i).getD []).getD b.toNat []).getD a.toNat 0))
    ∧ (xyz 4 1 storeC7 ⟨1, some 2, 1⟩ (some [3, 1, 2]) [0, 1, 2]).2
        = Except.ok [[[40, 41, 42], [20, 21, 22], [30, 31, 32]]]
    ∧ (xyz 4 1 storeC7 ⟨1, some 2, 1⟩ none [2, 0]).2
        = Except.ok [[[12, 10], [22, 20], [32, 30], [42, 40]]] :=
  ⟨xyz_ok, rfl, rfl⟩

/-- Witness for C7: the general part applied to `storeC7` with the bead
selection `[3,1,2]` and all three axes. -/
theorem c7_selection_order_witness :
    (xyz 4 1 storeC7 ⟨1, some 2, 1⟩ (some [3, 1, 2]) [0, 1, 2]).2
      = Except.ok [[[40, 41, 42], [20, 21, 22], [30, 31, 32]]] := by
  have h := c7_selection_order.1 4 1 storeC7 ⟨1, some 2, 1⟩ [3, 1, 2] [0, 1, 2]
    (by decide) (by decide)
    (by
      intro i hi
      have hfi : frameIndices ⟨1, some 2, 1⟩ 1 = [1] := rfl
      rw [hfi] at hi
      simp only [List.mem_singleton] at hi
      subst hi
      exact ⟨[[10, 11, 12], [20, 21, 22], [30, 31, 32], [40, 41, 42]], rfl, rfl,
        by decide⟩)
  exact h

/-- C8 (corrected).  The claim reads: a bead selection containing a
duplicate or an index outside `[0, N)` makes `xyz` fail and return no
tensor.  `numpy.take` happily repeats rows for duplicate indices and wraps
indices in `[-N, 0)`, so the refuting instances are: the duplicate
selection `[0, 0]` on a 2-bead trajectory, which succeeds and returns bead
0's row twice, and the selection `[-1]`, whose index lies outside `[0, N)`
yet succeeds, wrapping to the last bead. -/
theorem c8_selection_errors_counterexample :
    (xyz 2 1 storeC8 ⟨1, some 2, 1⟩ (some [0, 0]) [0, 1, 2]).2
        = Except.ok [[[1, 2, 3], [1, 2, 3]]]
      ∧ (xyz 2 1 storeC8 ⟨1, some 2, 1⟩ (some [-1]) [0, 1, 2]).2
        = Except.ok [[[4, 5, 6]]] :=
  ⟨rfl, rfl⟩

/-- C8 (corrected), the amended claim: a selection index outside `[-N, N)`
(where `N` is the row count of the frame being read) raises `IndexError`
as soon as a frame is actually read, and that is the only selection
failure: any selection whose indices all lie in `[0, N)` succeeds even
when it repeats indices — here stated for the explicitly duplicated
selection `sel ++ sel`.  Indices in `[-N, 0)` do not fail either; they wrap
(see the counterexample). -/
theorem c8_selection_errors_corrected :
    (∀ (Nb Nf : Nat) (cndb : ℤ → Option (List (List ℚ))) (r : FrameRange)
        (sel XYZ : List ℤ) (i : ℤ) (rest : List ℤ) (arr : List (List ℚ)) (b : ℤ),
      frameIndices r Nf = i :: rest →
      cndb i = some arr →
      b ∈ sel →
      (b < -(arr.length : ℤ) ∨ (arr.length : ℤ) ≤ b) →
      (xyz Nb Nf cndb r (some sel) XYZ).2 = Except.error "IndexError")
    ∧ (∀ (Nb Nf : Nat) (cndb : ℤ → Option (List (List ℚ))) (r : FrameRange)
        (sel XYZ : List ℤ),
      (∀ b ∈ sel, 0 ≤ b ∧ b < (Nb : ℤ)) →
      (∀ a ∈ XYZ, 0 ≤ a ∧ a < 3) →
      (∀ i ∈ frameIndices r Nf, ∃ arr, cndb i = some arr ∧ arr.length = Nb
        ∧ ∀ row ∈ arr, row.length = 3) →
      ∃ t, (xyz Nb Nf cndb r (some (sel ++ sel)) XYZ).2 = Except.ok t) := by
  constructor
  · intro Nb Nf cndb r sel XYZ i rest arr b hfr harr hb hbad
    exact xyz_bad_bead_error Nb Nf cndb r sel XYZ i rest arr b hfr harr hb hbad
  · intro Nb Nf cndb r sel XYZ hsel hax hfr
    refine ⟨_, xyz_ok Nb Nf cndb r (sel ++ sel) XYZ ?_ hax hfr⟩
    intro b hb
    rcases List.mem_append.mp hb with h1 | h1
    · exact hsel b h1
    · exact hsel b h1

/-- Witness for C8: the error part applied to `storeC8` with the
out-of-range index 5, and the duplicate-tolerance part applied to the
selection `[0] ++ [0]`. -/
theorem c8_selection_errors_corrected_witness :
    (xyz 2 1 storeC8 ⟨1, some 2, 1⟩ (some [0, 5]) [0, 1, 2]).2
        = Except.error "IndexError"
      ∧ ∃ t, (xyz 2 1 storeC8 ⟨1, some 2, 1⟩ (some ([0] ++ [0])) [0, 1, 2]).2
        = Except.ok t := by
  constructor
  · exact c8_selection_errors_corrected.1 2 1 storeC8 ⟨1, some 2, 1⟩ [0, 5]
      [0, 1, 2] 1 [] [[1, 2, 3], [4, 5, 6]] 5 rfl rfl (by decide) (by decide)
  · exact c8_selection_errors_corrected.2 2 1 storeC8 ⟨1, some 2, 1⟩ [0] [0, 1, 2]
      (by decide) (by decide)
      (by
        intro i hi
        have hfi : frameIndices ⟨1, some 2, 1⟩ 1 = [1] := rfl
        rw [hfi] at hi
        simp only [List.mem_singleton] at hi
        subst hi
        exact ⟨[[1, 2, 3], [4, 5, 6]], rfl, rfl, by decide⟩)
